import Mathlib

/-
Verification of the track-reconstruction logic of `deepmusic/midireader.py`
(`MidiReader.load_file`).  The event-level data model mirrors the mido
messages the reader dispatches on; the per-track state machine, note
matching, track filtering and song assembly are translated line by line
from the source.  The `Song` / `Track` / `Note` containers and
`Track.set_instrument` live in `deepmusic/songstruct.py`, which is not part
of the sources here; those are modelled from the specification and marked
as such.
-/

namespace DeepMusic

/-- Meta-message subtypes that are safely ignored
(`midireader.py` line 40, `META_INFO_TYPES`). -/
def META_INFO_TYPES : List String :=
  ["midi_port", "track_name", "lyrics", "end_of_track"]

/-- Meta-message subtypes that affect how the song is played
(`midireader.py` line 41, `META_TEMPO_TYPES`). -/
def META_TEMPO_TYPES : List String :=
  ["key_signature", "set_tempo", "time_signature"]

/-- Minimum number of finalized notes a track needs to be kept
(`midireader.py` line 46, `MINIMUM_TRACK_LENGTH`). -/
def MINIMUM_TRACK_LENGTH : Nat := 4

/-- Modelled from the spec: the `Note` record of `deepmusic/songstruct.py`,
which is not among the sources.  Fields as used by `midireader.py`: absolute
onset tick, pitch, and duration (`none` while the note is still open). -/
structure Note where
  tick : Nat
  note : Nat
  duration : Option Nat
deriving DecidableEq

/-- Modelled from the spec: the `Track` record of `deepmusic/songstruct.py`,
which is not among the sources.  Ordered finalized-note list, an optional
instrument identifier set at most once, and the percussive flag. -/
structure Track where
  notes : List Note
  instrument : Option Nat
  is_drum : Bool
deriving DecidableEq

/-- Modelled from the spec: `Track.set_instrument` of
`deepmusic/songstruct.py`, which is not among the sources.  Per the spec it
sets the track's instrument if unset and reports success, and reports
failure when the instrument is already set; the drum flag is derived from
the channel metadata supplied by the decoder (MIDI percussion channel 9). -/
def Track.set_instrument (t : Track) (channel program : Nat) : Option Track :=
  match t.instrument with
  | none => some { t with instrument := some program, is_drum := channel == 9 }
  | some _ => none

/-- Modelled from the spec: the `Song` record of `deepmusic/songstruct.py`,
which is not among the sources: an ordered sequence of tracks. -/
structure Song where
  tracks : List Track
deriving DecidableEq

/-- A decoded MIDI message as dispatched on by `MidiReader.load_file`:
either a meta message (with its subtype tag) or one of the channel-message
types the reader branches on; `other` stands for any remaining channel
message type.  Every message carries its delta-time in ticks. -/
inductive MidiMessage where
  | meta (time : Nat) (mtype : String)
  | note_on (time channel note velocity : Nat)
  | note_off (time channel note velocity : Nat)
  | program_change (time channel program : Nat)
  | control_change (time channel control value : Nat)
  | aftertouch (time channel value : Nat)
  | pitchwheel (time channel : Nat) (pitch : Int)
  | other (time : Nat) (mtype : String)
deriving DecidableEq

/-- Delta-time of a message (ticks since the previous event of the track). -/
def MidiMessage.time : MidiMessage → Nat
  | .meta t _ => t
  | .note_on t _ _ _ => t
  | .note_off t _ _ _ => t
  | .program_change t _ _ => t
  | .control_change t _ _ _ => t
  | .aftertouch t _ _ => t
  | .pitchwheel t _ _ => t
  | .other t _ => t

/-- Whether a message is a meta message
(the `isinstance(message, mido.MetaMessage)` test). -/
def MidiMessage.isMeta : MidiMessage → Bool
  | .meta _ _ => true
  | _ => false

/-- The failure taxonomy of the loader: one constructor per
`MidiInvalidException` raise site of `load_file`, named as in the spec
(section 7).  Only `UnterminatedNote` carries a payload (the count of
still-open notes). -/
inductive MidiError where
  | UnsupportedFormat
  | UnsupportedTiming
  | StructuralViolation
  | MisplacedTempoMeta
  | UnsupportedMeta
  | ChannelTrackMismatch
  | DuplicateInstrument
  | UnsupportedMessage
  | UnterminatedNote (count : Nat)
  | EmptySong
deriving DecidableEq

/-- A decoded MIDI file as `load_file` consumes it: file type, timing
resolution (`ticks_per_beat`), and the per-track message lists. -/
structure MidiFile where
  type : Nat
  ticks_per_beat : Nat
  tracks : List (List MidiMessage)
deriving DecidableEq

/-- The mutable state of the reconstruction of one track
(`new_track`, `buffer_notes`, `abs_tick` of `load_file`). -/
structure TrackState where
  track : Track
  buffer : List Note
  abs_tick : Nat
deriving DecidableEq

/-- One release event against the pending-note buffer (`midireader.py`
lines 155-159).  The Python source iterates over `buffer_notes` while
calling `buffer_notes.remove(note)` on every entry whose pitch matches, so
after a removal the element that had directly followed the removed entry is
skipped by the iterator and scanning then continues; a single release can
therefore close more than one note.  This structural recursion realizes
exactly that semantics; `releaseNotesIter_spec` below proves it equal to
the literal indexed iterate-and-remove loop.  Returns the remaining buffer
and the list of newly closed notes in close order. -/
def releaseNotes (pitch t : Nat) : List Note → List Note × List Note
  | [] => ([], [])
  | n :: rest =>
    if n.note = pitch then
      match rest with
      | [] => ([], [{ n with duration := some (t - n.tick) }])
      | m :: rest2 =>
        let p := releaseNotes pitch t rest2
        (m :: p.1, { n with duration := some (t - n.tick) } :: p.2)
    else
      let p := releaseNotes pitch t rest
      (n :: p.1, p.2)

/-- The literal transcription of the Python loop of lines 155-159: a list
iterator holds the index of the next element to read; `remove` deletes the
matched entry (Python object identity finds it at the current position), so
the next read — still at the advanced index — lands past the entry that
followed the removed one. -/
def releaseNotesIter (pitch t : Nat) (idx : Nat) (buffer closed : List Note) :
    List Note × List Note :=
  if h : idx < buffer.length then
    let n := buffer.get ⟨idx, h⟩
    if n.note = pitch then
      releaseNotesIter pitch t (idx + 1) (buffer.eraseIdx idx)
        (closed ++ [{ n with duration := some (t - n.tick) }])
    else
      releaseNotesIter pitch t (idx + 1) buffer closed
  else (buffer, closed)
termination_by buffer.length - idx
decreasing_by
  all_goals simp [List.length_eraseIdx, h]
  all_goals omega

/-- Dispatch of one message of a non-tempo-map track (`midireader.py`
lines 134-176).  `i` is the track position counting the tempo map as 0;
the absolute tick is advanced by the delta-time before the message is
interpreted. -/
def stepMessage (i : Nat) (s : TrackState) (msg : MidiMessage) :
    Except MidiError TrackState :=
  let t := s.abs_tick + msg.time
  match msg with
  | .meta _ mtype =>
    if META_INFO_TYPES.contains mtype then
      .ok { s with abs_tick := t }
    else if META_TEMPO_TYPES.contains mtype then
      .error .MisplacedTempoMeta
    else
      .error .UnsupportedMeta
  | .note_on _ channel note velocity =>
    if velocity ≠ 0 then
      let new_note : Note := { tick := t, note := note, duration := none }
      if i - 1 ≠ channel then
        .error .ChannelTrackMismatch
      else
        .ok { s with abs_tick := t, buffer := s.buffer ++ [new_note] }
    else
      let p := releaseNotes note t s.buffer
      .ok { track := { s.track with notes := s.track.notes ++ p.2 },
            buffer := p.1, abs_tick := t }
  | .note_off _ _ note _ =>
    let p := releaseNotes note t s.buffer
    .ok { track := { s.track with notes := s.track.notes ++ p.2 },
          buffer := p.1, abs_tick := t }
  | .program_change _ channel program =>
    match s.track.set_instrument channel program with
    | some tr => .ok { s with abs_tick := t, track := tr }
    | none => .error .DuplicateInstrument
  | .control_change _ _ _ _ => .ok { s with abs_tick := t }
  | .aftertouch _ _ _ => .ok { s with abs_tick := t }
  | .pitchwheel _ _ _ => .ok { s with abs_tick := t }
  | .other _ _ => .error .UnsupportedMessage

/-- The state a track's reconstruction starts from: fresh `music.Track()`,
empty pending-note buffer, absolute tick 0. -/
def initialState : TrackState :=
  { track := { notes := [], instrument := none, is_drum := false },
    buffer := [], abs_tick := 0 }

/-- The `for message in track` loop of `load_file`, threading the state and
aborting on the first failure. -/
def runMessages (i : Nat) : TrackState → List MidiMessage → Except MidiError TrackState
  | s, [] => .ok s
  | s, msg :: rest =>
    match stepMessage i s msg with
    | .ok s2 => runMessages i s2 rest
    | .error e => .error e

/-- Reconstruction of one non-tempo-map track, including the end-of-track
check of lines 181-182: any still-open note fails the load with the count
of open notes. -/
def processTrack (i : Nat) (msgs : List MidiMessage) : Except MidiError Track :=
  match runMessages i initialState msgs with
  | .error e => .error e
  | .ok s =>
    if s.buffer = [] then .ok s.track
    else .error (.UnterminatedNote s.buffer.length)

/-- Whether a reconstructed track survives the filter of lines 183-188:
dropped when it has fewer than `MINIMUM_TRACK_LENGTH` notes or is flagged
as a drum track. -/
def keepTrack (tr : Track) : Bool :=
  decide (MINIMUM_TRACK_LENGTH ≤ tr.notes.length) && !tr.is_drum

/-- The `for i, track in enumerate(midi_data.tracks[1:])` loop of
`load_file`: tracks are reconstructed in order starting at position `i`,
any failure aborts, and too-short or percussive tracks are silently
skipped (`continue`). -/
def processTracks (i : Nat) : List (List MidiMessage) → Except MidiError (List Track)
  | [] => .ok []
  | msgs :: rest =>
    match processTrack i msgs with
    | .error e => .error e
    | .ok tr =>
      match processTracks (i + 1) rest with
      | .error e => .error e
      | .ok others =>
        if tr.notes.length < MINIMUM_TRACK_LENGTH then .ok others
        else if tr.is_drum then .ok others
        else .ok (tr :: others)

/-- `MidiReader.load_file` (lines 57-201): the format gate (file type,
timing resolution, tempo-map purity), the per-track reconstruction loop,
and the final non-emptiness check.  The source indexes `tracks[0]`
unconditionally; in this total embedding an absent first track is read as
an empty tempo map. -/
def load_file (midi_data : MidiFile) : Except MidiError Song :=
  if midi_data.type ≠ 1 then .error .UnsupportedFormat
  else if ¬ (0 < midi_data.ticks_per_beat ∧ midi_data.ticks_per_beat < 128) then
    .error .UnsupportedTiming
  else
    let tempo_map := midi_data.tracks.headD []
    if ¬ (tempo_map.all MidiMessage.isMeta) then .error .StructuralViolation
    else
      match processTracks 1 midi_data.tracks.tail with
      | .error e => .error e
      | .ok kept =>
        if kept = [] then .error .EmptySong
        else .ok { tracks := kept }

/-- The tick at which a note ends: onset plus duration
(0 while the note is still open). -/
def endTick (n : Note) : Nat := n.tick + n.duration.getD 0

/-- Order of notes by their release (end) tick. -/
def releaseLE (a b : Note) : Prop := endTick a ≤ endTick b

/-- Order of notes by their onset tick. -/
def onsetLE (a b : Note) : Prop := a.tick ≤ b.tick

instance : DecidableRel releaseLE :=
  fun a b => inferInstanceAs (Decidable (endTick a ≤ endTick b))

instance : DecidableRel onsetLE :=
  fun a b => inferInstanceAs (Decidable (a.tick ≤ b.tick))

/-- The invariant the reconstruction of one track maintains: every open
note's onset is at or before the current absolute tick, every finalized
note ended at or before the current absolute tick, and the finalized notes
are in non-decreasing order of release tick. -/
def TrackInv (s : TrackState) : Prop :=
  (∀ n ∈ s.buffer, n.tick ≤ s.abs_tick) ∧
  (∀ n ∈ s.track.notes, endTick n ≤ s.abs_tick) ∧
  List.Pairwise releaseLE s.track.notes

/-- A concrete pending-note buffer holding two open pitch-60 notes around
an open pitch-61 note. -/
def stateC1 : TrackState :=
  { track := { notes := [], instrument := none, is_drum := false },
    buffer := [⟨0, 60, none⟩, ⟨1, 61, none⟩, ⟨2, 60, none⟩],
    abs_tick := 5 }

/-- The state the release of pitch 60 at the buffer `stateC1` produces. -/
def resultC1 : TrackState :=
  { track := { notes := [⟨0, 60, some 10⟩, ⟨2, 60, some 8⟩], instrument := none,
               is_drum := false },
    buffer := [⟨1, 61, none⟩],
    abs_tick := 10 }

/-- A small track state with one finalized note and one open pitch-60 note,
used to witness the tolerated unmatched release. -/
def stateC5 : TrackState :=
  { track := { notes := [⟨0, 50, some 2⟩], instrument := some 3, is_drum := false },
    buffer := [⟨1, 60, none⟩],
    abs_tick := 4 }

/-- A track state whose instrument is already set (to program 5). -/
def stateC9 : TrackState :=
  { track := { notes := [], instrument := some 5, is_drum := false },
    buffer := [], abs_tick := 0 }

/-- The state `stateC9` moves to on a channel-0 note-on at delta-time 0. -/
def stateC9after : TrackState :=
  { track := { notes := [], instrument := some 5, is_drum := false },
    buffer := [⟨0, 60, none⟩], abs_tick := 0 }

/-- The three-event track of C3: two overlapping pitch-60 note-ons at ticks
0 and 5, one note-off at tick 10. -/
def trackC3 : List MidiMessage :=
  [.note_on 0 0 60 64, .note_on 5 0 60 64, .note_off 5 0 60 0]

/-- A file whose single real track is `trackC3` (empty tempo map). -/
def fileC3 : MidiFile := ⟨1, 96, [[], trackC3]⟩

/-- The eight-event track of C2: a pitch-60 note spanning ticks 0-7
enclosing a pitch-61 note spanning ticks 5-6, followed by two short notes;
the finalized list comes out ordered by release tick, not by onset tick. -/
def trackC2 : List MidiMessage :=
  [.note_on 0 0 60 64, .note_on 5 0 61 64, .note_off 1 0 61 0, .note_off 1 0 60 0,
   .note_on 1 0 60 64, .note_off 1 0 60 0, .note_on 1 0 62 64, .note_off 1 0 62 0]

/-- A file whose single real track is `trackC2` (empty tempo map). -/
def fileC2 : MidiFile := ⟨1, 96, [[], trackC2]⟩

/-- The reconstructed track `trackC2` yields: four finalized notes with
onset ticks 5, 0, 8, 10 — in close order, not onset order. -/
def trackC2result : Track :=
  { notes := [⟨5, 61, some 1⟩, ⟨0, 60, some 7⟩, ⟨8, 60, some 1⟩, ⟨10, 62, some 1⟩],
    instrument := none, is_drum := false }

/-- The song `fileC2` loads to. -/
def songC2 : Song := ⟨[trackC2result]⟩

deriving instance DecidableEq for Except

/-- The indexed iterate-and-remove loop, started below position `pre.length`
of the buffer `pre ++ l` with the prefix already scanned, agrees with the
structural recursion `releaseNotes` on the unscanned suffix `l`. -/
theorem releaseNotesIter_go (pitch t : Nat) :
    (l pre closed : List Note) →
    releaseNotesIter pitch t pre.length (pre ++ l) closed =
      (pre ++ (releaseNotes pitch t l).1, closed ++ (releaseNotes pitch t l).2)
  | [], pre, closed => by
    rw [releaseNotesIter]
    simp [releaseNotes]
  | [n], pre, closed => by
    rw [releaseNotesIter]
    have hlen : pre.length < (pre ++ [n]).length := by simp
    rw [dif_pos hlen]
    have hget : (pre ++ [n]).get ⟨pre.length, hlen⟩ = n := by
      simp [List.get_eq_getElem, List.getElem_append_right (Nat.le_refl pre.length)]
    rw [hget]
    by_cases h : n.note = pitch
    · rw [if_pos h]
      rw [List.eraseIdx_append_of_length_le (Nat.le_refl _)]
      simp only [Nat.sub_self, List.eraseIdx_cons_zero, List.append_nil]
      rw [releaseNotesIter]
      simp [releaseNotes, h]
    · rw [if_neg h]
      have : pre.length + 1 = (pre ++ [n]).length := by simp
      rw [releaseNotesIter]
      simp [releaseNotes, h]
  | n :: m :: rest2, pre, closed => by
    rw [releaseNotesIter]
    have hlen : pre.length < (pre ++ n :: m :: rest2).length := by simp
    rw [dif_pos hlen]
    have hget : (pre ++ n :: m :: rest2).get ⟨pre.length, hlen⟩ = n := by
      simp [List.get_eq_getElem, List.getElem_append_right (Nat.le_refl pre.length)]
    rw [hget]
    by_cases h : n.note = pitch
    · rw [if_pos h]
      rw [List.eraseIdx_append_of_length_le (Nat.le_refl _)]
      simp only [Nat.sub_self, List.eraseIdx_cons_zero]
      have hre : pre ++ m :: rest2 = (pre ++ [m]) ++ rest2 := by simp
      have hidx : pre.length + 1 = (pre ++ [m]).length := by simp
      have ih := releaseNotesIter_go pitch t rest2 (pre ++ [m])
        (closed ++ [{ n with duration := some (t - n.tick) }])
      rw [hre, hidx, ih]
      simp [releaseNotes, h]
    · rw [if_neg h]
      have hre : pre ++ n :: m :: rest2 = (pre ++ [n]) ++ m :: rest2 := by simp
      have hidx : pre.length + 1 = (pre ++ [n]).length := by simp
      rw [hre, hidx, releaseNotesIter_go pitch t (m :: rest2) (pre ++ [n]) closed]
      simp [releaseNotes, h]

/-- The structural release scan is exactly the Python iterate-and-remove
loop started at index 0 with no note yet closed. -/
theorem releaseNotesIter_spec (pitch t : Nat) (l : List Note) :
    releaseNotesIter pitch t 0 l [] = releaseNotes pitch t l := by
  have h := releaseNotesIter_go pitch t l [] []
  simpa using h

/-- The release scan never grows the buffer. -/
theorem releaseNotes_fst_length_le (pitch t : Nat) :
    (l : List Note) → (releaseNotes pitch t l).1.length ≤ l.length
  | [] => by simp [releaseNotes]
  | [n] => by
    by_cases h : n.note = pitch <;> simp [releaseNotes, h]
  | n :: m :: rest2 => by
    by_cases h : n.note = pitch
    · have ih := releaseNotes_fst_length_le pitch t rest2
      simp only [releaseNotes, if_pos h]
      simp only [List.length_cons]
      omega
    · have ih := releaseNotes_fst_length_le pitch t (m :: rest2)
      simp only [releaseNotes, if_neg h]
      simp only [List.length_cons] at ih ⊢
      omega

/-- Every note left in the buffer by a release scan was in the buffer
before it. -/
theorem releaseNotes_fst_subset (pitch t : Nat) :
    (l : List Note) → ∀ x ∈ (releaseNotes pitch t l).1, x ∈ l
  | [] => by simp [releaseNotes]
  | [n] => by
    by_cases h : n.note = pitch <;> simp [releaseNotes, h]
  | n :: m :: rest2 => by
    by_cases h : n.note = pitch
    · have ih := releaseNotes_fst_subset pitch t rest2
      simp only [releaseNotes, if_pos h]
      intro x hx
      rcases List.mem_cons.mp hx with hx | hx
      · subst hx; simp
      · exact List.mem_cons_of_mem n (List.mem_cons_of_mem m (ih x hx))
    · have ih := releaseNotes_fst_subset pitch t (m :: rest2)
      simp only [releaseNotes, if_neg h]
      intro x hx
      rcases List.mem_cons.mp hx with hx | hx
      · subst hx; simp
      · exact List.mem_cons_of_mem n (ih x hx)

/-- Every note closed by a release scan is a buffer entry of the matched
pitch, with its duration set to the scan tick minus its onset tick. -/
theorem releaseNotes_snd_spec (pitch t : Nat) :
    (l : List Note) → ∀ x ∈ (releaseNotes pitch t l).2,
      ∃ n, n ∈ l ∧ n.note = pitch ∧ x = { n with duration := some (t - n.tick) }
  | [] => by simp [releaseNotes]
  | [n] => by
    by_cases h : n.note = pitch
    · simp only [releaseNotes, if_pos h]
      intro x hx
      simp only [List.mem_singleton] at hx
      exact ⟨n, by simp, h, hx⟩
    · simp [releaseNotes, h]
  | n :: m :: rest2 => by
    by_cases h : n.note = pitch
    · have ih := releaseNotes_snd_spec pitch t rest2
      simp only [releaseNotes, if_pos h]
      intro x hx
      rcases List.mem_cons.mp hx with hx | hx
      · exact ⟨n, by simp, h, hx⟩
      · rcases ih x hx with ⟨n2, hn2, hp, hx2⟩
        exact ⟨n2, by simp [hn2], hp, hx2⟩
    · have ih := releaseNotes_snd_spec pitch t (m :: rest2)
      simp only [releaseNotes, if_neg h]
      intro x hx
      rcases ih x hx with ⟨n2, hn2, hp, hx2⟩
      exact ⟨n2, List.mem_cons_of_mem n hn2, hp, hx2⟩

/-- A release with no matching open note leaves the buffer unchanged and
closes nothing. -/
theorem releaseNotes_no_match (pitch t : Nat) :
    (l : List Note) → (∀ n ∈ l, n.note ≠ pitch) → releaseNotes pitch t l = (l, [])
  | [], _ => by simp [releaseNotes]
  | [n], h => by
    have hn : n.note ≠ pitch := h n (by simp)
    simp [releaseNotes, hn]
  | n :: m :: rest2, h => by
    have hn : n.note ≠ pitch := h n (by simp)
    have ih := releaseNotes_no_match pitch t (m :: rest2)
      (fun x hx => h x (List.mem_cons.mpr (Or.inr hx)))
    simp [releaseNotes, hn, ih]

/-- If the buffer holds a note of the released pitch, the scan closes the
oldest such entry first: its closed copy heads the newly-closed list, all
entries before it stay in place, and the buffer shrinks. -/
theorem releaseNotes_first_match (pitch t : Nat) :
    (l : List Note) → (∃ n ∈ l, n.note = pitch) →
    ∃ j n, l[j]? = some n ∧ n.note = pitch ∧
      (∀ k, k < j → ∀ m2, l[k]? = some m2 → m2.note ≠ pitch) ∧
      (∃ more, (releaseNotes pitch t l).2 =
        { n with duration := some (t - n.tick) } :: more) ∧
      (releaseNotes pitch t l).1.take j = l.take j ∧
      (releaseNotes pitch t l).1.length < l.length
  | [], h => by simp at h
  | [n], h => by
    have hn : n.note = pitch := by
      rcases h with ⟨x, hx, hp⟩
      simp only [List.mem_singleton] at hx
      subst hx; exact hp
    refine ⟨0, n, rfl, hn, ?_, ?_, ?_, ?_⟩
    · intro k hk; omega
    · exact ⟨[], by simp [releaseNotes, hn]⟩
    · simp
    · simp [releaseNotes, hn]
  | n :: m :: rest2, h => by
    by_cases hn : n.note = pitch
    · refine ⟨0, n, rfl, hn, ?_, ?_, ?_, ?_⟩
      · intro k hk; omega
      · simp only [releaseNotes, if_pos hn]
        exact ⟨(releaseNotes pitch t rest2).2, rfl⟩
      · simp
      · have := releaseNotes_fst_length_le pitch t rest2
        simp only [releaseNotes, if_pos hn, List.length_cons]
        omega
    · have h2 : ∃ x ∈ m :: rest2, x.note = pitch := by
        rcases h with ⟨x, hx, hp⟩
        rcases List.mem_cons.mp hx with hx | hx
        · subst hx; exact absurd hp hn
        · exact ⟨x, hx, hp⟩
      obtain ⟨j, n2, hj, hp2, hfirst, ⟨more, hmore⟩, htake, hlen⟩ :=
        releaseNotes_first_match pitch t (m :: rest2) h2
      refine ⟨j + 1, n2, ?_, hp2, ?_, ?_, ?_, ?_⟩
      · simpa using hj
      · intro k hk m2 hm2
        match k with
        | 0 =>
          simp only [List.getElem?_cons_zero, Option.some.injEq] at hm2
          subst hm2; exact hn
        | k' + 1 =>
          simp only [List.getElem?_cons_succ] at hm2
          exact hfirst k' (by omega) m2 hm2
      · refine ⟨more, ?_⟩
        simp only [releaseNotes, if_neg hn]
        exact hmore
      · simp only [releaseNotes, if_neg hn, List.take_succ_cons]
        rw [htake]
      · simp only [releaseNotes, if_neg hn, List.length_cons]
        simp only [List.length_cons] at hlen
        omega

/-- C1: counterexample.  With open notes of pitches 60, 61, 60 in the
buffer, a single note-off for pitch 60 finalizes TWO notes, not exactly
one: removing the first match while iterating makes the scan skip the
pitch-61 entry and close the second pitch-60 entry as well, so that entry
does not remain open. -/
theorem C1_counterexample :
    stepMessage 1 stateC1 (.note_off 5 0 60 64) = .ok resultC1 ∧
    resultC1.track.notes.length = 2 ∧
    (⟨2, 60, none⟩ : Note) ∉ resultC1.buffer := by
  refine ⟨rfl, rfl, by decide⟩

/-- C1 (amended): on a release event of pitch P — note-off, or note-on with
zero velocity — with at least one open note of pitch P buffered, the scan
closes first the oldest buffer entry of pitch P — its duration set to
`abs_tick - onset`, its closed copy heading the notes appended to the
finalized list — leaves every buffer entry before it unchanged, and shrinks
the buffer; further same-pitch entries may be closed by the same release
(the iterate-and-remove scan skips the entry directly after a removed
one).  Both release encodings reach the same successor state. -/
theorem C1_first_match_closed (i : Nat) (s : TrackState)
    (time channel pitch velocity : Nat)
    (h : ∃ n ∈ s.buffer, n.note = pitch) :
    ∃ s2, stepMessage i s (.note_off time channel pitch velocity) = .ok s2 ∧
    stepMessage i s (.note_on time channel pitch 0) = .ok s2 ∧
    ∃ j n, s.buffer[j]? = some n ∧ n.note = pitch ∧
      (∀ k, k < j → ∀ m2, s.buffer[k]? = some m2 → m2.note ≠ pitch) ∧
      (∃ more, s2.track.notes = s.track.notes ++
        ({ n with duration := some (s.abs_tick + time - n.tick) } :: more)) ∧
      s2.buffer.take j = s.buffer.take j ∧
      s2.buffer.length < s.buffer.length := by
  obtain ⟨j, n, hj, hp, hfirst, ⟨more, hmore⟩, htake, hlen⟩ :=
    releaseNotes_first_match pitch (s.abs_tick + time) s.buffer h
  refine ⟨_, rfl, ?_, j, n, hj, hp, hfirst, ⟨more, ?_⟩, ?_, ?_⟩
  · simp only [stepMessage, MidiMessage.time, ne_eq, not_true_eq_false, if_false]
  · simp only [stepMessage, MidiMessage.time]
    rw [hmore]
  · simpa only [stepMessage, MidiMessage.time] using htake
  · simpa only [stepMessage, MidiMessage.time] using hlen

/-- C1: witness.  The amended statement applied to the concrete buffer of
`stateC1` and a release of pitch 60 at delta-time 5, in both encodings. -/
theorem C1_witness :
    ∃ s2, stepMessage 1 stateC1 (.note_off 5 0 60 64) = .ok s2 ∧
    stepMessage 1 stateC1 (.note_on 5 0 60 0) = .ok s2 ∧
    ∃ j n, stateC1.buffer[j]? = some n ∧ n.note = 60 ∧
      (∀ k, k < j → ∀ m2, stateC1.buffer[k]? = some m2 → m2.note ≠ 60) ∧
      (∃ more, s2.track.notes = stateC1.track.notes ++
        ({ n with duration := some (stateC1.abs_tick + 5 - n.tick) } :: more)) ∧
      s2.buffer.take j = stateC1.buffer.take j ∧
      s2.buffer.length < stateC1.buffer.length :=
  C1_first_match_closed 1 stateC1 5 0 60 64 ⟨⟨0, 60, none⟩, by decide, rfl⟩

/-- Any failure of the per-track message loop originates at the dispatch of
some message of the track. -/
theorem runMessages_error_origin (i : Nat) :
    (msgs : List MidiMessage) → (s : TrackState) → (e : MidiError) →
    runMessages i s msgs = .error e →
    ∃ s2 m, m ∈ msgs ∧ stepMessage i s2 m = .error e
  | [], s, e => by simp [runMessages]
  | msg :: rest, s, e => by
    intro h
    rw [runMessages] at h
    cases hstep : stepMessage i s msg with
    | ok s2 =>
      rw [hstep] at h
      obtain ⟨s3, m, hm, he⟩ := runMessages_error_origin i rest s2 e h
      exact ⟨s3, m, List.mem_cons_of_mem _ hm, he⟩
    | error e2 =>
      rw [hstep] at h
      simp only [Except.error.injEq] at h
      subst h
      exact ⟨s, msg, by simp, hstep⟩

/-- The dispatch of a single message fails with `ChannelTrackMismatch`
exactly when the message is a note-on of non-zero velocity whose channel
differs from `i - 1`. -/
theorem stepMessage_mismatch_iff (i : Nat) (s : TrackState) (m : MidiMessage) :
    stepMessage i s m = .error .ChannelTrackMismatch ↔
      ∃ time channel note velocity, m = .note_on time channel note velocity ∧
        velocity ≠ 0 ∧ channel ≠ i - 1 := by
  cases m with
  | note_on time channel note velocity =>
    simp only [stepMessage]
    constructor
    · intro h
      by_cases hv : velocity ≠ 0
      · rw [if_pos hv] at h
        by_cases hc : i - 1 ≠ channel
        · exact ⟨time, channel, note, velocity, rfl, hv, Ne.symm hc⟩
        · rw [if_neg hc] at h
          simp at h
      · rw [if_neg hv] at h
        simp at h
    · rintro ⟨t2, c2, n2, v2, heq, hv, hc⟩
      injection heq with h1 h2 h3 h4
      subst h1; subst h2; subst h3; subst h4
      rw [if_pos hv, if_pos (Ne.symm hc)]
  | meta time mtype =>
    simp only [stepMessage]
    constructor
    · intro h
      split at h
      · simp at h
      · split at h <;> simp at h
    · rintro ⟨_, _, _, _, heq, _, _⟩; cases heq
  | note_off time channel note velocity =>
    simp only [stepMessage]
    constructor
    · intro h; simp at h
    · rintro ⟨_, _, _, _, heq, _, _⟩; cases heq
  | program_change time channel program =>
    simp only [stepMessage]
    constructor
    · intro h
      cases hset : (s.track).set_instrument channel program <;>
        rw [hset] at h <;> simp at h
    · rintro ⟨_, _, _, _, heq, _, _⟩; cases heq
  | control_change time channel control value =>
    simp only [stepMessage]
    constructor
    · intro h; simp at h
    · rintro ⟨_, _, _, _, heq, _, _⟩; cases heq
  | aftertouch time channel value =>
    simp only [stepMessage]
    constructor
    · intro h; simp at h
    · rintro ⟨_, _, _, _, heq, _, _⟩; cases heq
  | pitchwheel time channel pitch =>
    simp only [stepMessage]
    constructor
    · intro h; simp at h
    · rintro ⟨_, _, _, _, heq, _, _⟩; cases heq
  | other time mtype =>
    simp only [stepMessage]
    constructor
    · intro h; simp at h
    · rintro ⟨_, _, _, _, heq, _, _⟩; cases heq

/-- C4: a single event's dispatch in the track at position `i` (tempo map
at position 0) fails with `ChannelTrackMismatch` if and only if the event
is a note-on with non-zero velocity whose channel differs from `i - 1`;
consequently a whole-track reconstruction failing with
`ChannelTrackMismatch` contains such a note-on, while releases,
program-change, control-change, aftertouch and pitch-bend events never
produce this failure whatever their channel. -/
theorem C4_channel_mismatch (i : Nat) (s : TrackState) (m : MidiMessage)
    (_hi : 1 ≤ i) :
    (stepMessage i s m = .error .ChannelTrackMismatch ↔
      ∃ time channel note velocity, m = .note_on time channel note velocity ∧
        velocity ≠ 0 ∧ channel ≠ i - 1) ∧
    (∀ msgs, processTrack i msgs = .error .ChannelTrackMismatch →
      ∃ time channel note velocity,
        (MidiMessage.note_on time channel note velocity) ∈ msgs ∧
        velocity ≠ 0 ∧ channel ≠ i - 1) := by
  refine ⟨stepMessage_mismatch_iff i s m, ?_⟩
  intro msgs h
  cases hrun : runMessages i initialState msgs with
  | ok s2 =>
    simp only [processTrack, hrun] at h
    split at h <;> simp at h
  | error e =>
    simp only [processTrack, hrun, Except.error.injEq] at h
    subst h
    obtain ⟨s2, m2, hm2, hstep⟩ := runMessages_error_origin i msgs initialState _ hrun
    obtain ⟨time, channel, note, velocity, heq, hv, hc⟩ :=
      (stepMessage_mismatch_iff i s2 m2).mp hstep
    subst heq
    exact ⟨time, channel, note, velocity, hm2, hv, hc⟩

/-- C4: witness.  In the first real track (position 1, expected channel 0)
a non-zero-velocity note-on carrying channel 3 fails with
`ChannelTrackMismatch`. -/
theorem C4_witness :
    stepMessage 1 initialState (.note_on 0 3 60 64) =
      .error .ChannelTrackMismatch :=
  (C4_channel_mismatch 1 initialState (.note_on 0 3 60 64) (by decide)).1.mpr
    ⟨0, 3, 60, 64, rfl, by decide, by decide⟩

/-- C5: a release (note-off, or zero-velocity note-on) for a pitch with no
matching open note succeeds, finalizes nothing, and leaves buffer and
finalized notes unchanged; only the absolute tick advances by the
delta-time. -/
theorem C5_unmatched_release (i : Nat) (s : TrackState)
    (time channel pitch velocity : Nat)
    (h : ∀ n ∈ s.buffer, n.note ≠ pitch) :
    stepMessage i s (.note_off time channel pitch velocity) =
      .ok { s with abs_tick := s.abs_tick + time } ∧
    stepMessage i s (.note_on time channel pitch 0) =
      .ok { s with abs_tick := s.abs_tick + time } := by
  have hrel := releaseNotes_no_match pitch (s.abs_tick + time) s.buffer h
  constructor
  · simp only [stepMessage, MidiMessage.time, hrel, List.append_nil]
  · simp only [stepMessage, MidiMessage.time, ne_eq, not_true_eq_false,
      if_false, hrel, List.append_nil]

/-- C5: witness.  Releasing pitch 61 against a buffer whose only open note
has pitch 60 is a no-op apart from the tick advance, in both release
encodings. -/
theorem C5_witness :
    stepMessage 1 stateC5 (.note_off 3 0 61 64) =
      .ok { stateC5 with abs_tick := stateC5.abs_tick + 3 } ∧
    stepMessage 1 stateC5 (.note_on 3 0 61 0) =
      .ok { stateC5 with abs_tick := stateC5.abs_tick + 3 } :=
  C5_unmatched_release 1 stateC5 3 0 61 64 (by decide)

/-- C9: instrument handling of a track.  A program-change on a track with
no instrument set succeeds and sets it; a program-change on a track whose
instrument is already set fails with `DuplicateInstrument`; and no
successful dispatch of any message ever changes an already-set
instrument. -/
theorem C9_instrument (i : Nat) (s : TrackState) (time channel program : Nat) :
    (s.track.instrument = none →
      stepMessage i s (.program_change time channel program) =
        .ok { s with
              abs_tick := s.abs_tick + time
              track := { s.track with
                         instrument := some program
                         is_drum := channel == 9 } }) ∧
    (∀ p, s.track.instrument = some p →
      stepMessage i s (.program_change time channel program) =
        .error .DuplicateInstrument) ∧
    (∀ m s2 p, s.track.instrument = some p → stepMessage i s m = .ok s2 →
      s2.track.instrument = some p) := by
  refine ⟨?_, ?_, ?_⟩
  · intro h
    simp only [stepMessage, MidiMessage.time, Track.set_instrument, h]
  · intro p hp
    simp only [stepMessage, MidiMessage.time, Track.set_instrument, hp]
  · intro m s2 p hp hok
    cases m with
    | meta time2 mtype =>
      simp only [stepMessage] at hok
      split at hok
      · simp only [Except.ok.injEq] at hok
        subst hok; exact hp
      · split at hok <;> simp at hok
    | note_on time2 channel2 note2 velocity2 =>
      simp only [stepMessage] at hok
      split at hok
      · split at hok
        · simp at hok
        · simp only [Except.ok.injEq] at hok
          subst hok; exact hp
      · simp only [Except.ok.injEq] at hok
        subst hok; exact hp
    | note_off time2 channel2 note2 velocity2 =>
      simp only [stepMessage, Except.ok.injEq] at hok
      subst hok; exact hp
    | program_change time2 channel2 program2 =>
      simp only [stepMessage, Track.set_instrument, hp] at hok
      cases hok
    | control_change time2 channel2 control2 value2 =>
      simp only [stepMessage, Except.ok.injEq] at hok
      subst hok; exact hp
    | aftertouch time2 channel2 value2 =>
      simp only [stepMessage, Except.ok.injEq] at hok
      subst hok; exact hp
    | pitchwheel time2 channel2 pitch2 =>
      simp only [stepMessage, Except.ok.injEq] at hok
      subst hok; exact hp
    | other time2 mtype2 =>
      simp only [stepMessage] at hok
      cases hok

/-- C9: witness.  A first program-change (program 5) on a fresh track
succeeds and sets the instrument; a second one (program 7) then fails with
`DuplicateInstrument`; and dispatching a note-on over the track with the
instrument set keeps the instrument at 5. -/
theorem C9_witness :
    stepMessage 1 initialState (.program_change 0 0 5) =
      .ok { initialState with
            abs_tick := 0 + 0
            track := { initialState.track with
                       instrument := some 5
                       is_drum := (0 == 9) } } ∧
    stepMessage 1 stateC9 (.program_change 0 0 7) = .error .DuplicateInstrument ∧
    stateC9after.track.instrument = some 5 :=
  ⟨(C9_instrument 1 initialState 0 0 5).1 rfl,
   (C9_instrument 1 stateC9 0 0 7).2.1 5 rfl,
   (C9_instrument 1 stateC9 0 0 7).2.2 (.note_on 0 0 60 64) stateC9after 5 rfl rfl⟩

/-- C3: when the message loop of a track finishes with a non-empty
pending-note buffer of k open notes, the track's reconstruction fails with
`UnterminatedNote k`; on the concrete track note-on(60)@0, note-on(60)@5,
note-off(60)@10 exactly one note is finalized — pitch 60, onset 0,
duration 10 — while the tick-5 note stays open and the whole load fails
with `UnterminatedNote 1`. -/
theorem C3_unterminated :
    (∀ i msgs s, runMessages i initialState msgs = .ok s → s.buffer ≠ [] →
      processTrack i msgs = .error (.UnterminatedNote s.buffer.length)) ∧
    (runMessages 1 initialState trackC3 =
      .ok ⟨⟨[⟨0, 60, some 10⟩], none, false⟩, [⟨5, 60, none⟩], 10⟩ ∧
     load_file fileC3 = .error (.UnterminatedNote 1)) := by
  refine ⟨?_, rfl, rfl⟩
  intro i msgs s hrun hne
  rw [processTrack, hrun]
  simp only [if_neg hne]

/-- C3: witness.  The end-of-track rule applied to the concrete track
`trackC3`, whose loop ends with one open note. -/
theorem C3_witness : processTrack 1 trackC3 = .error (.UnterminatedNote 1) :=
  C3_unterminated.1 1 trackC3
    ⟨⟨[⟨0, 60, some 10⟩], none, false⟩, [⟨5, 60, none⟩], 10⟩ rfl (by decide)

/-- C10: the tempo-map read (`midi_data.tracks[0]`, line 110) is guarded by
no typed-failure branch for an empty track list.  In this total embedding
an absent first track reads as an empty tempo map, so a file with no tracks
that passes the type and timing checks produces no typed failure at the
gate step; the load runs through to the assembler and fails only there,
with `EmptySong`. -/
theorem C10_empty_tracklist (file : MidiFile) (h0 : file.tracks = [])
    (h1 : file.type = 1) (h2 : 0 < file.ticks_per_beat)
    (h3 : file.ticks_per_beat < 128) :
    load_file file = .error .EmptySong := by
  simp only [load_file, h0, h1]
  simp [h2, h3, processTracks]

/-- C10: witness.  The empty-track-list file of type 1 with resolution 96
loads to `EmptySong`, not to any gate failure. -/
theorem C10_witness : load_file ⟨1, 96, []⟩ = .error .EmptySong :=
  C10_empty_tracklist ⟨1, 96, []⟩ rfl rfl (by decide) (by decide)

/-- C7: after the format gate passes and every per-track reconstruction
succeeds (producing the retained list `kept`), the load fails with
`EmptySong` exactly when no track was retained, and otherwise returns the
song of the retained tracks, which is non-empty. -/
theorem C7_empty_song (file : MidiFile) (kept : List Track)
    (h1 : file.type = 1)
    (h2 : 0 < file.ticks_per_beat ∧ file.ticks_per_beat < 128)
    (h3 : (file.tracks.headD []).all MidiMessage.isMeta = true)
    (h4 : processTracks 1 file.tracks.tail = .ok kept) :
    (load_file file = .error .EmptySong ↔ kept = []) ∧
    (kept ≠ [] →
      load_file file = .ok ⟨kept⟩ ∧ (⟨kept⟩ : Song).tracks ≠ []) := by
  have hload : load_file file =
      (if kept = [] then .error .EmptySong else .ok ⟨kept⟩) := by
    simp only [load_file, h1, h3, h4]
    simp [h2]
  constructor
  · by_cases hk : kept = [] <;> simp [hload, hk]
  · intro hk
    refine ⟨by simp [hload, hk], by simpa using hk⟩

/-- C7: witness.  A file whose only track is the (empty) tempo map retains
zero tracks; the assembler fails with `EmptySong`. -/
theorem C7_witness :
    (load_file ⟨1, 96, [[]]⟩ = .error .EmptySong ↔ ([] : List Track) = []) ∧
    (([] : List Track) ≠ [] →
      load_file ⟨1, 96, [[]]⟩ = .ok ⟨[]⟩ ∧ (⟨[]⟩ : Song).tracks ≠ []) :=
  C7_empty_song ⟨1, 96, [[]]⟩ [] rfl (by decide) rfl rfl

/-- No single-message dispatch ever fails with `UnsupportedTiming`: the
timing check happens only in the format gate. -/
theorem stepMessage_ne_timing (i : Nat) (s : TrackState) (m : MidiMessage) :
    stepMessage i s m ≠ .error .UnsupportedTiming := by
  cases m <;> simp only [stepMessage] <;> intro h
  case meta => split at h
               · simp at h
               · split at h <;> simp at h
  case note_on => split at h
                  · split at h <;> simp at h
                  · simp at h
  case note_off => simp at h
  case program_change => split at h <;> simp_all
  case control_change => simp at h
  case aftertouch => simp at h
  case pitchwheel => simp at h
  case other => simp at h

/-- The per-track message loop never fails with `UnsupportedTiming`. -/
theorem runMessages_ne_timing (i : Nat) (msgs : List MidiMessage)
    (s : TrackState) : runMessages i s msgs ≠ .error .UnsupportedTiming := by
  intro h
  obtain ⟨s2, m, _, hstep⟩ := runMessages_error_origin i msgs s _ h
  exact stepMessage_ne_timing i s2 m hstep

/-- Reconstructing a track never fails with `UnsupportedTiming`. -/
theorem processTrack_ne_timing (i : Nat) (msgs : List MidiMessage) :
    processTrack i msgs ≠ .error .UnsupportedTiming := by
  intro h
  cases hrun : runMessages i initialState msgs with
  | ok s =>
    simp only [processTrack, hrun] at h
    split at h <;> simp at h
  | error e =>
    simp only [processTrack, hrun, Except.error.injEq] at h
    subst h
    exact runMessages_ne_timing i msgs initialState hrun

/-- The whole track loop never fails with `UnsupportedTiming`. -/
theorem processTracks_ne_timing (i : Nat) :
    (ts : List (List MidiMessage)) →
    processTracks i ts ≠ .error .UnsupportedTiming
  | [] => by simp [processTracks]
  | msgs :: rest => by
    intro h
    simp only [processTracks] at h
    cases hp : processTrack i msgs with
    | error e =>
      simp only [hp, Except.error.injEq] at h
      subst h
      exact processTrack_ne_timing i msgs hp
    | ok tr =>
      simp only [hp] at h
      cases hr : processTracks (i + 1) rest with
      | error e =>
        simp only [hr, Except.error.injEq] at h
        subst h
        exact processTracks_ne_timing (i + 1) rest hr
      | ok others =>
        simp only [hr] at h
        split at h
        · simp at h
        · split at h <;> simp at h

/-- C8: for a file of the synchronous multi-track type (type 1), the load
fails with `UnsupportedTiming` exactly when the timing resolution `r`
violates `0 < r < 128`; no later stage ever produces this failure. -/
theorem C8_timing (file : MidiFile) (h : file.type = 1) :
    load_file file = .error .UnsupportedTiming ↔
      ¬ (0 < file.ticks_per_beat ∧ file.ticks_per_beat < 128) := by
  constructor
  · intro hl
    by_contra hc
    simp only [load_file, h, if_neg (by simp : ¬ (1 : Nat) ≠ 1),
      if_neg (not_not_intro hc)] at hl
    split at hl
    · simp at hl
    · cases hp : processTracks 1 file.tracks.tail with
      | error e =>
        simp only [hp, Except.error.injEq] at hl
        subst hl
        exact processTracks_ne_timing 1 file.tracks.tail hp
      | ok kept =>
        simp only [hp] at hl
        split at hl <;> simp at hl
  · intro hc
    simp only [load_file, h, if_neg (by simp : ¬ (1 : Nat) ≠ 1), if_pos hc]

/-- C8: witness.  Resolutions 0 and 128 fail the timing check; resolutions
1 and 127 pass it (the loads then fail later, with `EmptySong`, never with
`UnsupportedTiming`). -/
theorem C8_witness :
    load_file ⟨1, 0, []⟩ = .error .UnsupportedTiming ∧
    load_file ⟨1, 128, []⟩ = .error .UnsupportedTiming ∧
    load_file ⟨1, 1, []⟩ ≠ .error .UnsupportedTiming ∧
    load_file ⟨1, 127, []⟩ ≠ .error .UnsupportedTiming :=
  ⟨(C8_timing ⟨1, 0, []⟩ rfl).mpr (by decide),
   (C8_timing ⟨1, 128, []⟩ rfl).mpr (by decide),
   fun hc => absurd ⟨by decide, by decide⟩ ((C8_timing ⟨1, 1, []⟩ rfl).mp hc),
   fun hc => absurd ⟨by decide, by decide⟩ ((C8_timing ⟨1, 127, []⟩ rfl).mp hc)⟩

/-- A successful load passes every gate and returns exactly the retained
track list, which is non-empty. -/
theorem load_file_ok_elim (file : MidiFile) (song : Song)
    (h : load_file file = .ok song) :
    file.type = 1 ∧ (0 < file.ticks_per_beat ∧ file.ticks_per_beat < 128) ∧
    (file.tracks.headD []).all MidiMessage.isMeta = true ∧
    processTracks 1 file.tracks.tail = .ok song.tracks ∧
    song.tracks ≠ [] := by
  by_cases h1 : file.type ≠ 1
  · simp [load_file, h1] at h
  · rw [not_not] at h1
    by_cases h2 : 0 < file.ticks_per_beat ∧ file.ticks_per_beat < 128
    · by_cases h3 : (file.tracks.headD []).all MidiMessage.isMeta = true
      · simp only [load_file, if_neg (not_not_intro h1),
          if_neg (not_not_intro h2), h3] at h
        cases hp : processTracks 1 file.tracks.tail with
        | error e => simp [hp] at h
        | ok kept =>
          simp only [hp] at h
          by_cases hk : kept = []
          · simp [hk] at h
          · rw [if_neg hk] at h
            injection h with hinj
            subst hinj
            refine ⟨h1, h2, h3, ?_, ?_⟩
            · rfl
            · simpa using hk
      · simp only [load_file, if_neg (not_not_intro h1),
          if_neg (not_not_intro h2)] at h
        rw [if_pos h3] at h
        cases h
    · simp [load_file, h1, h2] at h

/-- Success of the track loop means every track reconstructed successfully
(position `i + j` for offset `j`), and the returned list is exactly the
reconstructed tracks in source order restricted by the keep filter. -/
theorem processTracks_ok_spec (i : Nat) :
    (ts : List (List MidiMessage)) → (l : List Track) →
    processTracks i ts = .ok l →
    ∃ results : List Track, results.length = ts.length ∧
      (∀ j msgs, ts[j]? = some msgs →
        ∃ tr, results[j]? = some tr ∧ processTrack (i + j) msgs = .ok tr) ∧
      l = results.filter keepTrack
  | [], l => by
    intro h
    simp only [processTracks, Except.ok.injEq] at h
    subst h
    refine ⟨[], rfl, ?_, rfl⟩
    intro j msgs hj
    simp at hj
  | msgs :: rest, l => by
    intro h
    simp only [processTracks] at h
    cases hp : processTrack i msgs with
    | error e => simp [hp] at h
    | ok tr =>
      simp only [hp] at h
      cases hr : processTracks (i + 1) rest with
      | error e => simp [hr] at h
      | ok others =>
        simp only [hr] at h
        obtain ⟨results, hlen, hidx, hfil⟩ :=
          processTracks_ok_spec (i + 1) rest others hr
        refine ⟨tr :: results, by simp [hlen], ?_, ?_⟩
        · intro j msgs2 hj
          match j with
          | 0 =>
            simp only [List.getElem?_cons_zero, Option.some.injEq] at hj
            subst hj
            exact ⟨tr, by simp, by simpa using hp⟩
          | j2 + 1 =>
            simp only [List.getElem?_cons_succ] at hj ⊢
            obtain ⟨tr2, htr2, hpt⟩ := hidx j2 msgs2 hj
            refine ⟨tr2, htr2, ?_⟩
            have harith : i + (j2 + 1) = (i + 1) + j2 := by omega
            rw [harith]
            exact hpt
        · by_cases hshort : tr.notes.length < MINIMUM_TRACK_LENGTH
          · rw [if_pos hshort] at h
            simp only [Except.ok.injEq] at h
            subst h
            have hk : keepTrack tr = false := by
              simp only [keepTrack, Bool.and_eq_false_iff, decide_eq_false_iff_not]
              left
              omega
            simp [List.filter_cons, hk, hfil]
          · rw [if_neg hshort] at h
            by_cases hdrum : tr.is_drum
            · rw [if_pos hdrum] at h
              simp only [Except.ok.injEq] at h
              subst h
              have hk : keepTrack tr = false := by
                simp [keepTrack, hdrum]
              simp [List.filter_cons, hk, hfil]
            · rw [if_neg hdrum] at h
              simp only [Except.ok.injEq] at h
              subst h
              have hk : keepTrack tr = true := by
                simp only [keepTrack, Bool.and_eq_true, decide_eq_true_eq]
                exact ⟨by omega, by simp [hdrum]⟩
              simp [List.filter_cons, hk, hfil]

/-- C6: a successful load reconstructed every non-tempo-map track without
failure (dropping is silent), and the song's track sequence is exactly the
reconstructed source sequence restricted to the surviving tracks — those
with at least `MINIMUM_TRACK_LENGTH` (4) notes and not flagged percussive —
in their original relative order. -/
theorem C6_track_filter (file : MidiFile) (song : Song)
    (h : load_file file = .ok song) :
    ∃ results : List Track, results.length = file.tracks.tail.length ∧
      (∀ j msgs, file.tracks.tail[j]? = some msgs →
        ∃ tr, results[j]? = some tr ∧ processTrack (1 + j) msgs = .ok tr) ∧
      song.tracks = results.filter keepTrack := by
  obtain ⟨-, -, -, hpt, -⟩ := load_file_ok_elim file song h
  exact processTracks_ok_spec 1 file.tracks.tail song.tracks hpt

/-- C6: witness.  The filter description applied to the concrete load of
`fileC2`, whose single real track survives with four notes. -/
theorem C6_witness :
    ∃ results : List Track, results.length = fileC2.tracks.tail.length ∧
      (∀ j msgs, fileC2.tracks.tail[j]? = some msgs →
        ∃ tr, results[j]? = some tr ∧ processTrack (1 + j) msgs = .ok tr) ∧
      songC2.tracks = results.filter keepTrack :=
  C6_track_filter fileC2 songC2 rfl

/-- Closing a note buffered at or before tick `t` makes it end exactly at
`t`. -/
theorem endTick_close (n : Note) (t : Nat) (h : n.tick ≤ t) :
    endTick { n with duration := some (t - n.tick) } = t := by
  simp [endTick, Nat.add_sub_cancel' h]

/-- A release step at tick `t` (at or after the current tick) preserves the
track invariant: surviving buffer entries keep their bound, and the notes
closed by the release all end exactly at `t`, extending the
release-ordered finalized list. -/
theorem releaseStep_inv (s : TrackState) (pitch t : Nat) (hts : s.abs_tick ≤ t)
    (hs : TrackInv s) :
    TrackInv { track := { s.track with
                 notes := s.track.notes ++ (releaseNotes pitch t s.buffer).2 },
               buffer := (releaseNotes pitch t s.buffer).1, abs_tick := t } := by
  obtain ⟨hbuf, hnotes, hpair⟩ := hs
  have hclosed : ∀ x ∈ (releaseNotes pitch t s.buffer).2, endTick x = t := by
    intro x hx
    obtain ⟨n, hn, hp, hxeq⟩ := releaseNotes_snd_spec pitch t s.buffer x hx
    subst hxeq
    exact endTick_close n t (le_trans (hbuf n hn) hts)
  refine ⟨?_, ?_, ?_⟩
  · intro n hn
    exact le_trans (hbuf n (releaseNotes_fst_subset pitch t s.buffer n hn)) hts
  · intro n hn
    rcases List.mem_append.mp hn with hn | hn
    · exact le_trans (hnotes n hn) hts
    · exact le_of_eq (hclosed n hn)
  · rw [List.pairwise_append]
    refine ⟨hpair, ?_, ?_⟩
    · exact List.pairwise_of_forall_mem_list (fun a ha b hb => by
        simp [releaseLE, hclosed a ha, hclosed b hb])
    · intro a ha b hb
      simp only [releaseLE]
      rw [hclosed b hb]
      exact le_trans (hnotes a ha) hts

/-- Every successful message dispatch preserves the track invariant. -/
theorem stepMessage_inv (i : Nat) (s s2 : TrackState) (m : MidiMessage)
    (h : stepMessage i s m = .ok s2) (hs : TrackInv s) : TrackInv s2 := by
  obtain ⟨hbuf, hnotes, hpair⟩ := hs
  cases m with
  | meta time mtype =>
    simp only [stepMessage] at h
    split at h
    · injection h with h; subst h
      exact ⟨fun n hn => le_trans (hbuf n hn) (Nat.le_add_right _ _),
             fun n hn => le_trans (hnotes n hn) (Nat.le_add_right _ _), hpair⟩
    · split at h <;> cases h
  | note_on time channel note velocity =>
    simp only [stepMessage] at h
    split at h
    · split at h
      · cases h
      · injection h with h; subst h
        refine ⟨?_, fun n hn => le_trans (hnotes n hn) (Nat.le_add_right _ _),
                hpair⟩
        intro n hn
        rcases List.mem_append.mp hn with hn | hn
        · exact le_trans (hbuf n hn) (Nat.le_add_right _ _)
        · simp only [List.mem_singleton] at hn
          subst hn
          exact Nat.le_refl _
    · injection h with h; subst h
      exact releaseStep_inv s note (s.abs_tick + time) (Nat.le_add_right _ _)
        ⟨hbuf, hnotes, hpair⟩
  | note_off time channel note velocity =>
    simp only [stepMessage] at h
    injection h with h; subst h
    exact releaseStep_inv s note (s.abs_tick + time) (Nat.le_add_right _ _)
      ⟨hbuf, hnotes, hpair⟩
  | program_change time channel program =>
    cases hin : s.track.instrument with
    | none =>
      simp only [stepMessage, Track.set_instrument, hin] at h
      injection h with h; subst h
      exact ⟨fun n hn => le_trans (hbuf n hn) (Nat.le_add_right _ _),
             fun n hn => le_trans (hnotes n hn) (Nat.le_add_right _ _), hpair⟩
    | some p =>
      simp only [stepMessage, Track.set_instrument, hin] at h
      cases h
  | control_change time channel control value =>
    simp only [stepMessage] at h
    injection h with h; subst h
    exact ⟨fun n hn => le_trans (hbuf n hn) (Nat.le_add_right _ _),
           fun n hn => le_trans (hnotes n hn) (Nat.le_add_right _ _), hpair⟩
  | aftertouch time channel value =>
    simp only [stepMessage] at h
    injection h with h; subst h
    exact ⟨fun n hn => le_trans (hbuf n hn) (Nat.le_add_right _ _),
           fun n hn => le_trans (hnotes n hn) (Nat.le_add_right _ _), hpair⟩
  | pitchwheel time channel pitch =>
    simp only [stepMessage] at h
    injection h with h; subst h
    exact ⟨fun n hn => le_trans (hbuf n hn) (Nat.le_add_right _ _),
           fun n hn => le_trans (hnotes n hn) (Nat.le_add_right _ _), hpair⟩
  | other time mtype =>
    simp only [stepMessage] at h
    cases h

/-- The message loop preserves the track invariant. -/
theorem runMessages_inv (i : Nat) :
    (msgs : List MidiMessage) → (s s2 : TrackState) →
    runMessages i s msgs = .ok s2 → TrackInv s → TrackInv s2
  | [], s, s2 => by
    intro h hs
    simp only [runMessages, Except.ok.injEq] at h
    subst h
    exact hs
  | msg :: rest, s, s2 => by
    intro h hs
    rw [runMessages] at h
    cases hstep : stepMessage i s msg with
    | ok s3 =>
      rw [hstep] at h
      exact runMessages_inv i rest s3 s2 h (stepMessage_inv i s s3 msg hstep hs)
    | error e =>
      rw [hstep] at h
      cases h

/-- The fresh per-track state satisfies the invariant. -/
theorem initialState_inv : TrackInv initialState :=
  ⟨by simp [initialState], by simp [initialState], by simp [initialState]⟩

/-- Every successfully reconstructed track has its finalized notes in
non-decreasing order of release tick. -/
theorem processTrack_pairwise (i : Nat) (msgs : List MidiMessage) (tr : Track)
    (h : processTrack i msgs = .ok tr) : List.Pairwise releaseLE tr.notes := by
  cases hrun : runMessages i initialState msgs with
  | error e => simp [processTrack, hrun] at h
  | ok s =>
    simp only [processTrack, hrun] at h
    split at h
    · injection h with h
      subst h
      exact (runMessages_inv i msgs initialState s hrun initialState_inv).2.2
    · cases h

/-- Every track retained by the track loop has release-ordered notes. -/
theorem processTracks_pairwise (i : Nat) :
    (ts : List (List MidiMessage)) → (l : List Track) →
    processTracks i ts = .ok l → ∀ tr ∈ l, List.Pairwise releaseLE tr.notes
  | [], l => by
    intro h tr htr
    simp only [processTracks, Except.ok.injEq] at h
    subst h
    simp at htr
  | msgs :: rest, l => by
    intro h tr htr
    simp only [processTracks] at h
    cases hp : processTrack i msgs with
    | error e => simp [hp] at h
    | ok tr2 =>
      simp only [hp] at h
      cases hr : processTracks (i + 1) rest with
      | error e => simp [hr] at h
      | ok others =>
        simp only [hr] at h
        have hothers := processTracks_pairwise (i + 1) rest others hr
        split at h
        · injection h with h; subst h
          exact hothers tr htr
        · split at h
          · injection h with h; subst h
            exact hothers tr htr
          · injection h with h; subst h
            rcases List.mem_cons.mp htr with htr | htr
            · subst htr
              exact processTrack_pairwise i msgs tr hp
            · exact hothers tr htr

/-- C2: counterexample.  `fileC2` loads successfully, but its single
track's finalized notes have onset ticks 5, 0, 8, 10 — not non-decreasing:
the long pitch-60 note starting at tick 0 is finalized after the enclosed
pitch-61 note starting at tick 5, because notes enter the finalized list in
release order, not onset order. -/
theorem C2_counterexample :
    load_file fileC2 = .ok songC2 ∧
    trackC2result ∈ songC2.tracks ∧
    ¬ List.Pairwise onsetLE trackC2result.notes :=
  ⟨rfl, by decide, by decide⟩

/-- C2 (amended): in every Song returned by a successful load, every
track's finalized note list is ordered by non-decreasing RELEASE tick
(onset plus duration) — insertion order is close order, and onset order is
not guaranteed. -/
theorem C2_sorted_by_release (file : MidiFile) (song : Song)
    (h : load_file file = .ok song) :
    ∀ tr ∈ song.tracks, List.Pairwise releaseLE tr.notes := by
  obtain ⟨-, -, -, hpt, -⟩ := load_file_ok_elim file song h
  exact processTracks_pairwise 1 file.tracks.tail song.tracks hpt

/-- C2: witness.  The amended ordering applied to the concrete load of
`fileC2`: its track's notes end at ticks 6, 7, 9, 11, non-decreasing. -/
theorem C2_witness : List.Pairwise releaseLE trackC2result.notes :=
  C2_sorted_by_release fileC2 songC2 rfl trackC2result (by decide)

end DeepMusic
